import Mathlib

/-!
Verification of the repository line-of-code analyzer (loc_counter.py).

The analyzer is embedded shallowly:

* a filesystem is a list of `SrcFile`s, each carrying its path components
  (root included, as produced by pathlib) and the outcome of opening it as
  UTF-8 text (`FileContent`);
* `count_lines` models the function of the same name, returning the count
  together with the list of messages it prints;
* glob matching (`fnmatch`-style `*`, `?`, `[...]` over a single path
  component) is implemented from scratch; `pathMatch` models
  `pathlib.PurePath.match` for relative patterns (matching pattern
  components against the trailing path components);
* `analyze_repo` folds over the configured extension list, globbing
  `**/*{ext}` (any depth, file name matching `*{ext}`) and accumulating
  into insertion-ordered association lists, the model of the two
  `defaultdict(int)` counters;
* `format_results` models the report, with percentages and averages as
  exact rationals.

File contents that fail to decode are `FileContent.binary`
(`UnicodeDecodeError` in the source); any other read failure is
`FileContent.readError` (the generic `except` branch, which prints an
error message).  Extensions and glob patterns are assumed not to contain
a path separator inside a single component where noted.
-/

/-- The ASCII whitespace characters stripped by Python `str.strip()`. -/
def isPySpace (c : Char) : Bool :=
  c = ' ' || c = '\t' || c = '\n' || c = '\r' || c = '\x0b' || c = '\x0c'

/-- Model of Python `str.strip()`: drop leading and trailing whitespace. -/
def pyStrip (s : String) : String :=
  String.mk (((s.data.dropWhile isPySpace).reverse.dropWhile isPySpace).reverse)

/-- Outcome of opening a file as UTF-8 text: its lines (newline terminators
already stripped away, which `str.strip()` would discard anyway), a decode
failure (`UnicodeDecodeError`), or any other read failure. -/
inductive FileContent where
  | text (lines : List String)
  | binary
  | readError (msg : String)
deriving DecidableEq

/-- Model of `count_lines` (loc_counter.py lines 47-57): the returned count
paired with the list of messages printed.  `sum(1 for line in f if
line.strip())` on success; `0` silently on a decode error; `0` plus an
error message on any other failure. -/
def count_lines (c : FileContent) : Nat × List String :=
  match c with
  | .text lines => ((lines.map (fun l => if pyStrip l != "" then 1 else 0)).sum, [])
  | .binary => (0, [])
  | .readError e => (0, ["Error reading: " ++ e])

/-- Python substring containment (`needle in hay`). -/
def strContains (hay needle : String) : Bool :=
  hay.data.tails.any (fun t => needle.data.isPrefixOf t)

/-- A compiled token of an `fnmatch`-style glob pattern. -/
inductive GlobTok where
  | star
  | qmark
  | lit (c : Char)
  | cls (neg : Bool) (cs : List Char)
deriving DecidableEq

/-- Membership of a character in the body of a `[...]` character class,
with `a-b` ranges compared by code point. -/
def matchClass (c : Char) : List Char → Bool
  | a :: '-' :: b :: rest => (a ≤ c && c ≤ b) || matchClass c rest
  | a :: rest => a = c || matchClass c rest
  | [] => false

/-- Split the body of a character class at its closing bracket: the
content before the first `]` and the remainder after it. -/
def splitClass : List Char → Option (List Char × List Char)
  | [] => none
  | ']' :: rest => some ([], rest)
  | c :: rest =>
    match splitClass rest with
    | some (cls, r) => some (c :: cls, r)
    | none => none

/-- Compile a glob pattern into tokens, `fnmatch.translate`-style: `*`,
`?`, `[...]` with optional leading `!` (negation) and a literal `]` as
first class member; an unclosed `[` is literal.  The fuel argument (the
pattern length at the outer call) only serves totality: every step
consumes at least one character. -/
def compileGlobAux : Nat → List Char → List GlobTok
  | 0, _ => []
  | _ + 1, [] => []
  | fuel + 1, '*' :: q => GlobTok.star :: compileGlobAux fuel q
  | fuel + 1, '?' :: q => GlobTok.qmark :: compileGlobAux fuel q
  | fuel + 1, '[' :: q =>
    match q with
    | '!' :: ']' :: q2 =>
      match splitClass q2 with
      | some (cls, rest) => GlobTok.cls true (']' :: cls) :: compileGlobAux fuel rest
      | none => GlobTok.lit '[' :: compileGlobAux fuel q
    | '!' :: q1 =>
      match splitClass q1 with
      | some (cls, rest) => GlobTok.cls true cls :: compileGlobAux fuel rest
      | none => GlobTok.lit '[' :: compileGlobAux fuel q
    | ']' :: q2 =>
      match splitClass q2 with
      | some (cls, rest) => GlobTok.cls false (']' :: cls) :: compileGlobAux fuel rest
      | none => GlobTok.lit '[' :: compileGlobAux fuel q
    | _ =>
      match splitClass q with
      | some (cls, rest) => GlobTok.cls false cls :: compileGlobAux fuel rest
      | none => GlobTok.lit '[' :: compileGlobAux fuel q
  | fuel + 1, c :: q => GlobTok.lit c :: compileGlobAux fuel q

/-- Match compiled glob tokens against a character list (anchored at both
ends, as `fnmatch` is).  Fuel only serves totality: every step strictly
decreases the combined length of tokens and input. -/
def globMatchAux : Nat → List GlobTok → List Char → Bool
  | 0, _, _ => false
  | _ + 1, [], s => s.isEmpty
  | fuel + 1, GlobTok.star :: p, [] => globMatchAux fuel p []
  | fuel + 1, GlobTok.star :: p, c :: s =>
    globMatchAux fuel p (c :: s) || globMatchAux fuel (GlobTok.star :: p) s
  | _ + 1, GlobTok.qmark :: _, [] => false
  | fuel + 1, GlobTok.qmark :: p, _ :: s => globMatchAux fuel p s
  | _ + 1, GlobTok.lit _ :: _, [] => false
  | fuel + 1, GlobTok.lit a :: p, c :: s => a = c && globMatchAux fuel p s
  | _ + 1, GlobTok.cls _ _ :: _, [] => false
  | fuel + 1, GlobTok.cls neg cs :: p, c :: s =>
    (matchClass c cs != neg) && globMatchAux fuel p s

/-- `fnmatch`-style match of a glob pattern against a name. -/
def globMatch (pattern name : String) : Bool :=
  let toks := compileGlobAux pattern.data.length pattern.data
  globMatchAux (toks.length + name.data.length + 1) toks name.data

/-- Split a character list on a separator character. -/
def splitOnChar (sep : Char) : List Char → List (List Char)
  | [] => [[]]
  | c :: rest =>
    match splitOnChar sep rest with
    | [] => [[c]]
    | h :: t => if c = sep then [] :: h :: t else (c :: h) :: t

/-- The components of a relative glob pattern, as `pathlib` parses them
(empty components from repeated or trailing slashes are dropped). -/
def patternParts (pattern : String) : List String :=
  ((splitOnChar '/' pattern.data).map String.mk).filter (fun s => s != "")

/-- Model of `pathlib.PurePath.match` for relative patterns: the pattern
components must match the trailing components of the path, each by
`fnmatch`; an empty pattern matches nothing (the source would raise). -/
def pathMatch (parts : List String) (pattern : String) : Bool :=
  let pat := patternParts pattern
  !pat.isEmpty && decide (pat.length ≤ parts.length) &&
    ((pat.reverse.zip parts.reverse).all (fun pr => globMatch pr.1 pr.2))

/-- A file of the scanned tree: its path components (root directory
included, as pathlib yields them) and the outcome of reading it. -/
structure SrcFile where
  parts : List String
  content : FileContent
deriving DecidableEq

/-- The string form `str(file_path)` of a file's path. -/
def pathStr (f : SrcFile) : String := String.intercalate "/" f.parts

/-- The base name (`Path.name`, the last path component) of a file. -/
def fileName (f : SrcFile) : String := f.parts.getLastD ""

/-- Whether a file is yielded by `root_path.glob(f"**/*{ext}")`: any
depth below the root, name matching the glob `*{ext}`. -/
def isCandidate (ext : String) (f : SrcFile) : Bool :=
  globMatch ("*" ++ ext) (fileName f)

/-- Model of `get_total_files` (loc_counter.py lines 59-65): the summed
sizes of the per-extension glob result lists, with no exclusion filter. -/
def get_total_files (files : List SrcFile) (include_extensions : List String) : Nat :=
  (include_extensions.map (fun ext => (files.filter (fun f => isCandidate ext f)).length)).sum

/-- An insertion-ordered association list, the model of a Python
`defaultdict(int)`. -/
abbrev CounterMap := List (String × Nat)

/-- Lookup with default `0`, the read behaviour of `defaultdict(int)`. -/
def getD (m : CounterMap) (k : String) : Nat :=
  match m with
  | [] => 0
  | p :: rest => if p.1 = k then p.2 else getD rest k

/-- Whether a key is present. -/
def hasKey (m : CounterMap) (k : String) : Bool :=
  m.any (fun p => decide (p.1 = k))

/-- Add `d` to the value of an entry when its key is `k`. -/
def updEntry (k : String) (d : Nat) (p : String × Nat) : String × Nat :=
  if p.1 = k then (p.1, p.2 + d) else p

/-- `m[k] += d` on a `defaultdict(int)`: update the entry in place if the
key is present, else append a fresh entry (insertion order). -/
def bump (m : CounterMap) (k : String) (d : Nat) : CounterMap :=
  if hasKey m k then m.map (updEntry k d)
  else m ++ [(k, d)]

/-- The sum of all stored values (`sum(m.values())`). -/
def valuesSum (m : CounterMap) : Nat := (m.map Prod.snd).sum

/-- The keys are pairwise distinct (true of every Python dict, and an
invariant of `bump`). -/
def keysNodup (m : CounterMap) : Prop := (m.map Prod.fst).Nodup

/-- The pair of counters built by `analyze_repo`: per-extension line
totals (`stats`) and per-extension processed-file counts. -/
structure AnalyzeResult where
  stats : CounterMap
  file_counts : CounterMap
deriving DecidableEq

/-- The body of the inner loop of `analyze_repo` (loc_counter.py lines
102-117) for one globbed file: skip if any excluded-directory entry is a
substring of the path string, skip if the path matches any excluded file
pattern, otherwise add the file's line count and bump its file count. -/
def processFile (exclude_dirs exclude_files : List String) (ext : String)
    (acc : AnalyzeResult) (f : SrcFile) : AnalyzeResult :=
  if exclude_dirs.any (fun d => strContains (pathStr f) d) then acc
  else if exclude_files.any (fun pat => pathMatch f.parts pat) then acc
  else
    { stats := bump acc.stats ext (count_lines f.content).1,
      file_counts := bump acc.file_counts ext 1 }

/-- Model of `analyze_repo` (loc_counter.py lines 97-122): for each entry
of the extension list in order, fold the glob results for that entry
through `processFile`, starting from two empty counters. -/
def analyze_repo (files : List SrcFile)
    (exclude_dirs exclude_files include_extensions : List String) : AnalyzeResult :=
  include_extensions.foldl
    (fun acc ext =>
      (files.filter (fun f => isCandidate ext f)).foldl
        (processFile exclude_dirs exclude_files ext) acc)
    { stats := [], file_counts := [] }

/-- The combined exclusion test of `analyze_repo`: some excluded-directory
entry is a substring of the path string, or the path matches some excluded
file pattern (the two `continue` conditions of lines 104-107). -/
def excludedBy (exclude_dirs exclude_files : List String) (f : SrcFile) : Bool :=
  exclude_dirs.any (fun d => strContains (pathStr f) d) ||
    exclude_files.any (fun pat => pathMatch f.parts pat)

/-- The percentage formula of `format_results`:
`(lines / total_lines) * 100 if total_lines > 0 else 0`, as an exact
rational. -/
def pct (lines total_lines : Nat) : ℚ :=
  if total_lines > 0 then (lines : ℚ) / total_lines * 100 else 0

/-- The average formula of `format_results`:
`lines / files if files > 0 else 0`, as an exact rational. -/
def avgOf (lines files : Nat) : ℚ :=
  if files > 0 then (lines : ℚ) / files else 0

/-- One line of the breakdown table of the report. -/
structure ReportRow where
  ext : String
  lines : Nat
  percentage : ℚ
  files : Nat
  avgLines : ℚ
deriving DecidableEq

/-- The numeric content of the formatted report. -/
structure Report where
  totalLines : Nat
  totalFiles : Nat
  rows : List ReportRow
deriving DecidableEq

/-- Stable insertion into a list sorted by descending count. -/
def insertDesc (x : String × Nat) : CounterMap → CounterMap
  | [] => [x]
  | y :: ys => if x.2 > y.2 then x :: y :: ys else y :: insertDesc x ys

/-- Model of `sorted(stats.items(), key=lambda x: x[1], reverse=True)`:
stable sort by descending count. -/
def sortDesc (m : CounterMap) : CounterMap := m.foldr insertDesc []

/-- The breakdown row computed for one `(extension, lines)` entry. -/
def mkRow (file_counts : CounterMap) (total_lines : Nat) (p : String × Nat) : ReportRow :=
  { ext := p.1, lines := p.2, percentage := pct p.2 total_lines,
    files := getD file_counts p.1, avgLines := avgOf p.2 (getD file_counts p.1) }

/-- Model of `format_results` (loc_counter.py lines 124-142): totals over
both counters and one breakdown row per extension, sorted by descending
line count. -/
def format_results (stats file_counts : CounterMap) : Report :=
  { totalLines := valuesSum stats,
    totalFiles := valuesSum file_counts,
    rows := (sortDesc stats).map (mkRow file_counts (valuesSum stats)) }

/-- The exclusion predicate as the specification words it: some
excluded-directory entry is a substring of the path's string form, or the
file's base name matches some excluded glob pattern.  To be compared with
`excludedBy`, whose pattern check is `pathMatch` over the whole path. -/
def specExcluded (exclude_dirs exclude_files : List String) (f : SrcFile) : Bool :=
  exclude_dirs.any (fun d => strContains (pathStr f) d) ||
    exclude_files.any (fun pat => globMatch pat (fileName f))

/-- The right-hand side of the spec's sum invariant as the specification
words it: the summed line counts of the files that match at least one
included extension and are not excluded, each file counted once. -/
def specIncludedLines (files : List SrcFile)
    (exclude_dirs exclude_files include_extensions : List String) : Nat :=
  ((files.filter (fun f =>
      include_extensions.any (fun ext => isCandidate ext f) &&
        !(excludedBy exclude_dirs exclude_files f))).map
    (fun f => (count_lines f.content).1)).sum

/-- The summed line counts of the files matching one given extension
entry and passing both exclusion filters. -/
def perExtIncludedLines (files : List SrcFile)
    (exclude_dirs exclude_files : List String) (ext : String) : Nat :=
  ((files.filter (fun f =>
      isCandidate ext f && !(excludedBy exclude_dirs exclude_files f))).map
    (fun f => (count_lines f.content).1)).sum

/-- The number of files matching one given extension entry and passing
both exclusion filters. -/
def perExtIncludedCount (files : List SrcFile)
    (exclude_dirs exclude_files : List String) (ext : String) : Nat :=
  (files.filter (fun f =>
    isCandidate ext f && !(excludedBy exclude_dirs exclude_files f))).length

/-- The summed line counts of all files of the tree, exclusions and
extension matching ignored. -/
def allFilesLines (files : List SrcFile) : Nat :=
  (files.map (fun f => (count_lines f.content).1)).sum


/-! Association-list counter lemmas -/

theorem hasKey_nil (k : String) : hasKey [] k = false := rfl

theorem hasKey_cons (p : String × Nat) (rest : CounterMap) (k : String) :
    hasKey (p :: rest) k = (decide (p.1 = k) || hasKey rest k) := rfl

theorem getD_cons (p : String × Nat) (rest : CounterMap) (k : String) :
    getD (p :: rest) k = if p.1 = k then p.2 else getD rest k := rfl

theorem hasKey_iff (m : CounterMap) (k : String) :
    hasKey m k = true ↔ k ∈ m.map Prod.fst := by
  induction m with
  | nil => simp [hasKey_nil]
  | cons p rest ih =>
    rw [hasKey_cons, Bool.or_eq_true, decide_eq_true_eq, List.map_cons,
      List.mem_cons, ih]
    exact or_congr_left eq_comm

theorem getD_eq_zero_of_not_hasKey (m : CounterMap) (k : String)
    (h : hasKey m k = false) : getD m k = 0 := by
  induction m with
  | nil => rfl
  | cons p rest ih =>
    rw [hasKey_cons] at h
    rcases Bool.or_eq_false_iff.mp h with ⟨h1, h2⟩
    rw [getD_cons, if_neg (by simpa using h1)]
    exact ih h2

theorem getD_append (m m' : CounterMap) (k : String) :
    getD (m ++ m') k = if hasKey m k then getD m k else getD m' k := by
  induction m with
  | nil => simp [hasKey_nil, getD]
  | cons p rest ih =>
    by_cases hp : p.1 = k
    · rw [List.cons_append, getD_cons, if_pos hp, hasKey_cons,
        if_pos (by simp [hp]), getD_cons, if_pos hp]
    · rw [List.cons_append, getD_cons, if_neg hp, ih, hasKey_cons,
        getD_cons]
      by_cases hr : hasKey rest k = true
      · rw [if_pos hr, if_pos (by simp [hr]), if_neg hp]
      · rw [if_neg hr, if_neg (by simp [hp, hr])]

theorem map_upd_of_not_hasKey (m : CounterMap) (k : String) (d : Nat)
    (h : hasKey m k = false) : m.map (updEntry k d) = m := by
  induction m with
  | nil => rfl
  | cons p rest ih =>
    rw [hasKey_cons] at h
    rcases Bool.or_eq_false_iff.mp h with ⟨h1, h2⟩
    rw [List.map_cons, updEntry, if_neg (by simpa using h1), ih h2]

theorem getD_map_upd_ne (m : CounterMap) (k k' : String) (d : Nat)
    (h : k' ≠ k) : getD (m.map (updEntry k d)) k' = getD m k' := by
  induction m with
  | nil => rfl
  | cons p rest ih =>
    by_cases hp : p.1 = k
    · have hp' : ¬ p.1 = k' := fun he => h (he ▸ hp)
      rw [List.map_cons, updEntry, if_pos hp, getD_cons, getD_cons,
        if_neg hp', if_neg hp', ih]
    · rw [List.map_cons, updEntry, if_neg hp, getD_cons, getD_cons, ih]

theorem getD_map_upd_eq (m : CounterMap) (k : String) (d : Nat)
    (h : hasKey m k = true) : getD (m.map (updEntry k d)) k = getD m k + d := by
  induction m with
  | nil => simp [hasKey_nil] at h
  | cons p rest ih =>
    by_cases hp : p.1 = k
    · rw [List.map_cons, updEntry, if_pos hp, getD_cons, getD_cons,
        if_pos hp, if_pos hp]
    · have hrest : hasKey rest k = true := by
        rw [hasKey_cons] at h
        cases hr : hasKey rest k
        · rw [hr, Bool.or_false] at h
          exact absurd (of_decide_eq_true h) hp
        · rfl
      rw [List.map_cons, updEntry, if_neg hp, getD_cons, getD_cons,
        if_neg hp, if_neg hp, ih hrest]

theorem getD_bump (m : CounterMap) (k k' : String) (d : Nat) :
    getD (bump m k d) k' = getD m k' + (if k' = k then d else 0) := by
  by_cases hk : hasKey m k = true
  · by_cases he : k' = k
    · subst he
      rw [bump, if_pos hk, getD_map_upd_eq m k' d hk, if_pos rfl]
    · rw [bump, if_pos hk, getD_map_upd_ne m k k' d he, if_neg he]
      omega
  · have hk' : hasKey m k = false := by simpa using hk
    rw [bump, if_neg (by simp [hk']), getD_append]
    by_cases he : k' = k
    · subst he
      rw [if_neg (by simp [hk']), getD_cons, if_pos rfl,
        getD_eq_zero_of_not_hasKey m k' hk', if_pos rfl]
      omega
    · rw [getD_cons, if_neg (fun hh : k = k' => he hh.symm)]
      by_cases hm : hasKey m k' = true
      · rw [if_pos hm, if_neg he]
        omega
      · rw [if_neg hm, if_neg he,
          getD_eq_zero_of_not_hasKey m k' (by simpa using hm)]
        rfl

theorem valuesSum_append (m m' : CounterMap) :
    valuesSum (m ++ m') = valuesSum m + valuesSum m' := by
  simp [valuesSum]

theorem valuesSum_map_upd (m : CounterMap) (k : String) (d : Nat)
    (hnd : keysNodup m) (h : hasKey m k = true) :
    valuesSum (m.map (updEntry k d)) = valuesSum m + d := by
  induction m with
  | nil => simp [hasKey_nil] at h
  | cons p rest ih =>
    rw [keysNodup, List.map_cons, List.nodup_cons] at hnd
    by_cases hp : p.1 = k
    · have hnk : hasKey rest k = false := by
        rcases hhk : hasKey rest k with _ | _
        · rfl
        · exact absurd (hp ▸ (hasKey_iff rest k).mp hhk) hnd.1
      rw [List.map_cons, updEntry, if_pos hp,
        map_upd_of_not_hasKey rest k d hnk]
      simp [valuesSum]
      omega
    · have hrest : hasKey rest k = true := by
        rw [hasKey_cons] at h
        cases hr : hasKey rest k
        · rw [hr, Bool.or_false] at h
          exact absurd (of_decide_eq_true h) hp
        · rfl
      have := ih hnd.2 hrest
      rw [List.map_cons, updEntry, if_neg hp]
      simp only [valuesSum, List.map_cons, List.sum_cons] at this ⊢
      omega

theorem valuesSum_bump (m : CounterMap) (k : String) (d : Nat)
    (hnd : keysNodup m) : valuesSum (bump m k d) = valuesSum m + d := by
  by_cases hk : hasKey m k = true
  · rw [bump, if_pos hk, valuesSum_map_upd m k d hnd hk]
  · rw [bump, if_neg (by simpa using hk), valuesSum_append]
    simp [valuesSum]

theorem keysNodup_bump (m : CounterMap) (k : String) (d : Nat)
    (hnd : keysNodup m) : keysNodup (bump m k d) := by
  by_cases hk : hasKey m k = true
  · have hfst : (Prod.fst ∘ updEntry k d) = (Prod.fst : String × Nat → String) := by
      funext p
      show (updEntry k d p).1 = p.1
      rw [updEntry]
      split <;> rfl
    rw [bump, if_pos hk, keysNodup, List.map_map, hfst]
    exact hnd
  · have hk' : hasKey m k = false := by simpa using hk
    rw [bump, if_neg (by simp [hk']), keysNodup, List.map_append,
      List.nodup_append]
    refine ⟨hnd, by simp, ?_⟩
    intro x hx
    simp only [List.map_cons, List.map_nil, List.mem_cons,
      List.not_mem_nil, or_false]
    intro he
    subst he
    exact absurd ((hasKey_iff m x).mpr hx) (by simp [hk'])

/-! Behaviour of the inner loop of analyze_repo -/

theorem processFile_of_excluded (ds fs : List String) (e : String)
    (a : AnalyzeResult) (f : SrcFile) (h : excludedBy ds fs f = true) :
    processFile ds fs e a f = a := by
  cases h1 : ds.any (fun d => strContains (pathStr f) d)
  · have h2 : fs.any (fun pat => pathMatch f.parts pat) = true := by
      simp only [excludedBy, h1, Bool.false_or] at h
      exact h
    simp [processFile, h1, h2]
  · simp [processFile, h1]

theorem processFile_stats_of_not_excluded (ds fs : List String) (e : String)
    (a : AnalyzeResult) (f : SrcFile) (h : excludedBy ds fs f = false) :
    (processFile ds fs e a f).stats = bump a.stats e (count_lines f.content).1 := by
  rcases Bool.or_eq_false_iff.mp (by simpa only [excludedBy] using h) with ⟨h1, h2⟩
  simp [processFile, h1, h2]

theorem processFile_fc_of_not_excluded (ds fs : List String) (e : String)
    (a : AnalyzeResult) (f : SrcFile) (h : excludedBy ds fs f = false) :
    (processFile ds fs e a f).file_counts = bump a.file_counts e 1 := by
  rcases Bool.or_eq_false_iff.mp (by simpa only [excludedBy] using h) with ⟨h1, h2⟩
  simp [processFile, h1, h2]

/-- The line counts contributed by a run of the inner loop over a list of
globbed files: zero for the excluded ones. -/
def keptLines (ds fs : List String) (l : List SrcFile) : Nat :=
  (l.map (fun f => if excludedBy ds fs f then 0 else (count_lines f.content).1)).sum

/-- The file-count contributions of a run of the inner loop over a list
of globbed files: zero for the excluded ones, one for the rest. -/
def keptCount (ds fs : List String) (l : List SrcFile) : Nat :=
  (l.map (fun f => if excludedBy ds fs f then 0 else 1)).sum

theorem foldl_processFile_getD (ds fs : List String) (e : String) (l : List SrcFile) :
    ∀ (a : AnalyzeResult) (k : String),
      getD ((l.foldl (processFile ds fs e) a).stats) k
        = getD a.stats k + (if k = e then keptLines ds fs l else 0) ∧
      getD ((l.foldl (processFile ds fs e) a).file_counts) k
        = getD a.file_counts k + (if k = e then keptCount ds fs l else 0) := by
  induction l with
  | nil =>
    intro a k
    constructor <;> simp [keptLines, keptCount]
  | cons f t ih =>
    intro a k
    rw [List.foldl_cons]
    cases hex : excludedBy ds fs f
    · obtain ⟨hs, hc⟩ := ih (processFile ds fs e a f) k
      constructor
      · rw [hs, processFile_stats_of_not_excluded ds fs e a f hex, getD_bump]
        simp [keptLines, hex]
        by_cases hke : k = e <;> simp [hke] <;> omega
      · rw [hc, processFile_fc_of_not_excluded ds fs e a f hex, getD_bump]
        simp [keptCount, hex]
        by_cases hke : k = e <;> simp [hke] <;> omega
    · rw [processFile_of_excluded ds fs e a f hex]
      obtain ⟨hs, hc⟩ := ih a k
      constructor
      · rw [hs]
        simp [keptLines, hex]
      · rw [hc]
        simp [keptCount, hex]

theorem foldl_processFile_sums (ds fs : List String) (e : String) (l : List SrcFile) :
    ∀ (a : AnalyzeResult), keysNodup a.stats → keysNodup a.file_counts →
      keysNodup ((l.foldl (processFile ds fs e) a).stats) ∧
      keysNodup ((l.foldl (processFile ds fs e) a).file_counts) ∧
      valuesSum ((l.foldl (processFile ds fs e) a).stats)
        = valuesSum a.stats + keptLines ds fs l ∧
      valuesSum ((l.foldl (processFile ds fs e) a).file_counts)
        = valuesSum a.file_counts + keptCount ds fs l := by
  induction l with
  | nil =>
    intro a h1 h2
    exact ⟨h1, h2, by simp [keptLines], by simp [keptCount]⟩
  | cons f t ih =>
    intro a h1 h2
    rw [List.foldl_cons]
    cases hex : excludedBy ds fs f
    · have hs' := processFile_stats_of_not_excluded ds fs e a f hex
      have hc' := processFile_fc_of_not_excluded ds fs e a f hex
      have hn1 : keysNodup (processFile ds fs e a f).stats := by
        rw [hs']
        exact keysNodup_bump _ _ _ h1
      have hn2 : keysNodup (processFile ds fs e a f).file_counts := by
        rw [hc']
        exact keysNodup_bump _ _ _ h2
      obtain ⟨g1, g2, g3, g4⟩ := ih (processFile ds fs e a f) hn1 hn2
      refine ⟨g1, g2, ?_, ?_⟩
      · rw [g3, hs', valuesSum_bump _ _ _ h1]
        simp [keptLines, hex]
        omega
      · rw [g4, hc', valuesSum_bump _ _ _ h2]
        simp [keptCount, hex]
        omega
    · rw [processFile_of_excluded ds fs e a f hex]
      obtain ⟨g1, g2, g3, g4⟩ := ih a h1 h2
      refine ⟨g1, g2, ?_, ?_⟩
      · rw [g3]
        simp [keptLines, hex]
      · rw [g4]
        simp [keptCount, hex]

/-! Characterisation of analyze_repo -/

theorem sum_ite_filter (q r : SrcFile → Bool) (c : SrcFile → Nat) (l : List SrcFile) :
    ((l.filter q).map (fun f => if r f then 0 else c f)).sum
      = ((l.filter (fun f => q f && !r f)).map c).sum := by
  induction l with
  | nil => rfl
  | cons f t ih =>
    rw [List.filter_cons, List.filter_cons]
    by_cases hq : q f = true
    · rw [if_pos hq, List.map_cons, List.sum_cons, ih]
      by_cases hr : r f = true
      · rw [if_pos hr, if_neg (by simp [hr])]
        omega
      · rw [if_neg hr, if_pos (by simp [hq, hr]), List.map_cons, List.sum_cons]
    · rw [if_neg hq, if_neg (by simp [hq]), ih]

theorem keptLines_filter (files : List SrcFile) (ds fs : List String) (e : String) :
    keptLines ds fs (files.filter (fun f => isCandidate e f))
      = perExtIncludedLines files ds fs e := by
  rw [keptLines, perExtIncludedLines]
  exact sum_ite_filter (fun f => isCandidate e f) (excludedBy ds fs)
    (fun f => (count_lines f.content).1) files

theorem sum_map_one (l : List SrcFile) : (l.map (fun _ => 1)).sum = l.length := by
  induction l with
  | nil => rfl
  | cons f t ih =>
    simp [ih]
    omega

theorem keptCount_filter (files : List SrcFile) (ds fs : List String) (e : String) :
    keptCount ds fs (files.filter (fun f => isCandidate e f))
      = perExtIncludedCount files ds fs e := by
  rw [keptCount, perExtIncludedCount, ← sum_map_one]
  exact sum_ite_filter (fun f => isCandidate e f) (excludedBy ds fs)
    (fun _ => 1) files

theorem analyze_aux_getD (files : List SrcFile) (ds fs : List String) :
    ∀ (exts : List String) (a : AnalyzeResult) (k : String),
      getD ((exts.foldl (fun acc ext =>
          (files.filter (fun f => isCandidate ext f)).foldl
            (processFile ds fs ext) acc) a).stats) k
        = getD a.stats k +
          (exts.map (fun e => if k = e
            then keptLines ds fs (files.filter (fun f => isCandidate e f))
            else 0)).sum ∧
      getD ((exts.foldl (fun acc ext =>
          (files.filter (fun f => isCandidate ext f)).foldl
            (processFile ds fs ext) acc) a).file_counts) k
        = getD a.file_counts k +
          (exts.map (fun e => if k = e
            then keptCount ds fs (files.filter (fun f => isCandidate e f))
            else 0)).sum := by
  intro exts
  induction exts with
  | nil =>
    intro a k
    constructor <;> simp
  | cons e t ih =>
    intro a k
    rw [List.foldl_cons]
    obtain ⟨hs, hc⟩ :=
      ih ((files.filter (fun f => isCandidate e f)).foldl (processFile ds fs e) a) k
    obtain ⟨gs, gc⟩ :=
      foldl_processFile_getD ds fs e (files.filter (fun f => isCandidate e f)) a k
    constructor
    · rw [hs, gs, List.map_cons, List.sum_cons]
      omega
    · rw [hc, gc, List.map_cons, List.sum_cons]
      omega

theorem sum_map_ite_eq (l : List String) (k : String) (v : String → Nat) :
    (l.map (fun e => if k = e then v e else 0)).sum = l.count k * v k := by
  induction l with
  | nil => simp
  | cons e t ih =>
    rw [List.map_cons, List.sum_cons, ih, List.count_cons]
    by_cases hke : k = e
    · subst hke
      simp [Nat.add_mul]
      omega
    · have : ¬ e = k := fun h => hke h.symm
      simp [hke, this]

theorem analyze_repo_stats_getD (files : List SrcFile)
    (ds fs exts : List String) (k : String) :
    getD (analyze_repo files ds fs exts).stats k
      = exts.count k * perExtIncludedLines files ds fs k := by
  obtain ⟨hs, _⟩ := analyze_aux_getD files ds fs exts ⟨[], []⟩ k
  rw [analyze_repo, hs]
  have heq : ∀ e, (if k = e
      then keptLines ds fs (files.filter (fun f => isCandidate e f)) else 0)
      = (if k = e then perExtIncludedLines files ds fs e else 0) := by
    intro e
    by_cases hke : k = e <;> simp [hke, keptLines_filter]
  calc getD ([] : CounterMap) k +
        (exts.map (fun e => if k = e
          then keptLines ds fs (files.filter (fun f => isCandidate e f))
          else 0)).sum
      = (exts.map (fun e =>
          if k = e then perExtIncludedLines files ds fs e else 0)).sum := by
        rw [List.map_congr_left (fun e _ => heq e)]
        simp [getD]
    _ = exts.count k * perExtIncludedLines files ds fs k := by
        rw [sum_map_ite_eq]

theorem analyze_repo_fc_getD (files : List SrcFile)
    (ds fs exts : List String) (k : String) :
    getD (analyze_repo files ds fs exts).file_counts k
      = exts.count k * perExtIncludedCount files ds fs k := by
  obtain ⟨_, hc⟩ := analyze_aux_getD files ds fs exts ⟨[], []⟩ k
  rw [analyze_repo, hc]
  have heq : ∀ e, (if k = e
      then keptCount ds fs (files.filter (fun f => isCandidate e f)) else 0)
      = (if k = e then perExtIncludedCount files ds fs e else 0) := by
    intro e
    by_cases hke : k = e <;> simp [hke, keptCount_filter]
  calc getD ([] : CounterMap) k +
        (exts.map (fun e => if k = e
          then keptCount ds fs (files.filter (fun f => isCandidate e f))
          else 0)).sum
      = (exts.map (fun e =>
          if k = e then perExtIncludedCount files ds fs e else 0)).sum := by
        rw [List.map_congr_left (fun e _ => heq e)]
        simp [getD]
    _ = exts.count k * perExtIncludedCount files ds fs k := by
        rw [sum_map_ite_eq]

theorem analyze_aux_sums (files : List SrcFile) (ds fs : List String) :
    ∀ (exts : List String) (a : AnalyzeResult),
      keysNodup a.stats → keysNodup a.file_counts →
      keysNodup ((exts.foldl (fun acc ext =>
          (files.filter (fun f => isCandidate ext f)).foldl
            (processFile ds fs ext) acc) a).stats) ∧
      keysNodup ((exts.foldl (fun acc ext =>
          (files.filter (fun f => isCandidate ext f)).foldl
            (processFile ds fs ext) acc) a).file_counts) ∧
      valuesSum ((exts.foldl (fun acc ext =>
          (files.filter (fun f => isCandidate ext f)).foldl
            (processFile ds fs ext) acc) a).stats)
        = valuesSum a.stats + (exts.map (fun e =>
            keptLines ds fs (files.filter (fun f => isCandidate e f)))).sum ∧
      valuesSum ((exts.foldl (fun acc ext =>
          (files.filter (fun f => isCandidate ext f)).foldl
            (processFile ds fs ext) acc) a).file_counts)
        = valuesSum a.file_counts + (exts.map (fun e =>
            keptCount ds fs (files.filter (fun f => isCandidate e f)))).sum := by
  intro exts
  induction exts with
  | nil =>
    intro a h1 h2
    exact ⟨h1, h2, by simp, by simp⟩
  | cons e t ih =>
    intro a h1 h2
    rw [List.foldl_cons]
    obtain ⟨g1, g2, g3, g4⟩ :=
      foldl_processFile_sums ds fs e (files.filter (fun f => isCandidate e f)) a h1 h2
    obtain ⟨j1, j2, j3, j4⟩ :=
      ih ((files.filter (fun f => isCandidate e f)).foldl (processFile ds fs e) a) g1 g2
    refine ⟨j1, j2, ?_, ?_⟩
    · rw [j3, g3, List.map_cons, List.sum_cons]
      omega
    · rw [j4, g4, List.map_cons, List.sum_cons]
      omega

theorem analyze_repo_stats_sum (files : List SrcFile) (ds fs exts : List String) :
    valuesSum (analyze_repo files ds fs exts).stats
      = (exts.map (fun e => perExtIncludedLines files ds fs e)).sum := by
  obtain ⟨_, _, h3, _⟩ := analyze_aux_sums files ds fs exts ⟨[], []⟩
    (by simp [keysNodup]) (by simp [keysNodup])
  rw [analyze_repo, h3,
    List.map_congr_left (fun e _ => keptLines_filter files ds fs e)]
  simp [valuesSum]

theorem analyze_repo_fc_sum (files : List SrcFile) (ds fs exts : List String) :
    valuesSum (analyze_repo files ds fs exts).file_counts
      = (exts.map (fun e => perExtIncludedCount files ds fs e)).sum := by
  obtain ⟨_, _, _, h4⟩ := analyze_aux_sums files ds fs exts ⟨[], []⟩
    (by simp [keysNodup]) (by simp [keysNodup])
  rw [analyze_repo, h4,
    List.map_congr_left (fun e _ => keptCount_filter files ds fs e)]
  simp [valuesSum]

/-! Helper lemmas for skipped files, pattern components and bounds -/

theorem foldl_congr_fun {α β : Type} (l : List α) (g1 g2 : β → α → β) (a : β)
    (h : ∀ b x, g1 b x = g2 b x) : l.foldl g1 a = l.foldl g2 a := by
  induction l generalizing a with
  | nil => rfl
  | cons x t ih => rw [List.foldl_cons, List.foldl_cons, h, ih]

theorem analyze_repo_erase (files1 files2 : List SrcFile) (f : SrcFile)
    (ds fs exts : List String) (hex : excludedBy ds fs f = true) :
    analyze_repo (files1 ++ f :: files2) ds fs exts
      = analyze_repo (files1 ++ files2) ds fs exts := by
  rw [analyze_repo, analyze_repo]
  apply foldl_congr_fun
  intro a e
  rw [List.filter_append, List.filter_append, List.filter_cons]
  by_cases hc : isCandidate e f = true
  · rw [if_pos hc, List.foldl_append, List.foldl_append, List.foldl_cons,
      processFile_of_excluded ds fs e _ f hex]
  · rw [if_neg hc]

theorem perExtIncludedLines_middle_zero (l1 l2 : List SrcFile) (f : SrcFile)
    (ds fs : List String) (e : String) (h : (count_lines f.content).1 = 0) :
    perExtIncludedLines (l1 ++ f :: l2) ds fs e
      = perExtIncludedLines (l1 ++ l2) ds fs e := by
  simp only [perExtIncludedLines, List.filter_append, List.filter_cons]
  by_cases hc : (isCandidate e f && !(excludedBy ds fs f)) = true
  · rw [if_pos hc]
    simp [h]
  · rw [if_neg hc]

theorem perExtIncludedCount_middle (l1 l2 : List SrcFile) (f : SrcFile)
    (ds fs : List String) (e : String) (hc : isCandidate e f = true)
    (hx : excludedBy ds fs f = false) :
    perExtIncludedCount (l1 ++ f :: l2) ds fs e
      = perExtIncludedCount (l1 ++ l2) ds fs e + 1 := by
  simp only [perExtIncludedCount, List.filter_append, List.filter_cons]
  rw [if_pos (by simp [hc, hx])]
  simp
  omega

theorem length_filter_and_le (p q : SrcFile → Bool) (l : List SrcFile) :
    (l.filter (fun f => p f && q f)).length ≤ (l.filter p).length := by
  induction l with
  | nil => exact Nat.le_refl 0
  | cons f t ih =>
    rw [List.filter_cons, List.filter_cons]
    by_cases hp : p f = true
    · rw [if_pos hp]
      by_cases hq : q f = true
      · rw [if_pos (by simp [hp, hq])]
        simpa using ih
    
      · rw [if_neg (by simp [hq])]
        simp
        omega
    · rw [if_neg hp, if_neg (by simp [hp])]
      exact ih

theorem sum_le_sum_map {α : Type} (l : List α) (f g : α → Nat)
    (h : ∀ x ∈ l, f x ≤ g x) : (l.map f).sum ≤ (l.map g).sum := by
  induction l with
  | nil => exact Nat.le_refl 0
  | cons x t ih =>
    rw [List.map_cons, List.map_cons, List.sum_cons, List.sum_cons]
    have h1 := h x (List.mem_cons_self x t)
    have h2 := ih (fun y hy => h y (List.mem_cons_of_mem x hy))
    omega

theorem splitOnChar_of_not_mem (sep : Char) (l : List Char) (h : sep ∉ l) :
    splitOnChar sep l = [l] := by
  induction l with
  | nil => rfl
  | cons c rest ih =>
    have hr : splitOnChar sep rest = [rest] :=
      ih (fun hm => h (List.mem_cons_of_mem c hm))
    have hc : ¬ c = sep := by
      intro he
      exact h (by rw [← he]; exact List.mem_cons_self c rest)
    simp only [splitOnChar, hr]
    rw [if_neg hc]

theorem patternParts_single (pat : String) (hne : pat ≠ "")
    (hs : '/' ∉ pat.data) : patternParts pat = [pat] := by
  rw [patternParts, splitOnChar_of_not_mem '/' pat.data hs]
  simp only [List.map_cons, List.map_nil]
  have hmk : String.mk pat.data = pat := rfl
  rw [hmk, List.filter_cons]
  rw [if_pos (by simp [hne])]
  rfl

theorem pathMatch_eq_basename (parts : List String) (pat : String)
    (hne : pat ≠ "") (hs : '/' ∉ pat.data) (hp : parts ≠ []) :
    pathMatch parts pat = globMatch pat (parts.getLastD "") := by
  rw [pathMatch, patternParts_single pat hne hs]
  obtain ⟨l', x, hx⟩ : ∃ l' x, parts = l' ++ [x] :=
    ⟨parts.dropLast, parts.getLast hp, (List.dropLast_append_getLast hp).symm⟩
  subst hx
  rw [List.reverse_append]
  simp [List.getLastD_concat]

theorem any_congr {α : Type} (l : List α) (p q : α → Bool)
    (h : ∀ x ∈ l, p x = q x) : l.any p = l.any q := by
  induction l with
  | nil => rfl
  | cons x t ih =>
    rw [List.any_cons, List.any_cons, h x (List.mem_cons_self x t),
      ih (fun y hy => h y (List.mem_cons_of_mem x hy))]

theorem avgOf_lt_of_extra_file (L n : Nat) (hL : 0 < L) (hn : 0 < n) :
    avgOf L (n + 1) < avgOf L n := by
  rw [avgOf, avgOf, if_pos (by omega), if_pos hn]
  have h1 : (0 : ℚ) < L := by exact_mod_cast hL
  have h2 : (0 : ℚ) < n := by exact_mod_cast hn
  have h3 : (n : ℚ) < ((n + 1 : Nat) : ℚ) := by
    push_cast
    linarith
  exact div_lt_div_of_pos_left h1 h2 h3

/-! Sample files used in concrete scenarios -/

/-- A one-line Python file used in the multiplicity counterexamples. -/
def samplePy : SrcFile := ⟨["r", "a.py"], FileContent.text ["x"]⟩

/-- The scenario file `a.py`: three non-blank lines and one blank line. -/
def sampleA : SrcFile := ⟨["repo", "a.py"], FileContent.text ["line1", "line2", "", "line3"]⟩

/-- The scenario file `b.py`: an empty file. -/
def sampleB : SrcFile := ⟨["repo", "b.py"], FileContent.text []⟩

/-- A JavaScript file inside directory `d`. -/
def sampleDJs : SrcFile := ⟨["d", "x.js"], FileContent.text ["a"]⟩

/-- A file with a Python extension that fails to decode as text. -/
def sampleBin : SrcFile := ⟨["r", "img.py"], FileContent.binary⟩

/-- A minified JavaScript file, matched by the `*.min.js` pattern. -/
def sampleMin : SrcFile := ⟨["r", "a.min.js"], FileContent.text ["a", "b"]⟩

/-! The claims -/

/-- C1 (counterexample): the total of the per-extension line counts does
not in general equal the sum of `count_lines` over the included,
non-excluded files counted once each.  With extension entries `.py` and
`py`, the single one-line file `r/a.py` is globbed by both entries, so
the bucket totals sum to 2 while the spec-worded per-file sum is 1. -/
theorem stats_total_ne_spec_included_sum :
    valuesSum (analyze_repo [samplePy] [] [] [".py", "py"]).stats
        ≠ specIncludedLines [samplePy] [] [] [".py", "py"] ∧
    valuesSum (analyze_repo [samplePy] [] [] [".py", "py"]).stats = 2 ∧
    specIncludedLines [samplePy] [] [] [".py", "py"] = 1 := by
  decide

/-- C1 (amended): for every root file set, exclusion configuration and
extension list, the total of the per-extension line counts returned by
`analyze_repo` equals the sum over the extension-list entries of the
line counts of the files that match that entry and pass both exclusion
filters — a file matching several entries is counted once per entry. -/
theorem analyze_repo_stats_total_per_entry (files : List SrcFile)
    (ds fs exts : List String) :
    valuesSum (analyze_repo files ds fs exts).stats
      = (exts.map (fun e => perExtIncludedLines files ds fs e)).sum :=
  analyze_repo_stats_sum files ds fs exts

/-- C2 (counterexample): a single processed file can contribute to two
different extension buckets.  With extension entries `.py` and `py`, the
one-line file `r/a.py` is globbed once per entry: both buckets receive
its line, and the summed bucket totals (2) exceed the combined line
count of every file on disk (1) — impossible if every processed file
contributed exactly once to exactly one bucket. -/
theorem file_counted_in_two_buckets :
    getD (analyze_repo [samplePy] [] [] [".py", "py"]).stats ".py" = 1 ∧
    getD (analyze_repo [samplePy] [] [] [".py", "py"]).stats "py" = 1 ∧
    allFilesLines [samplePy] = 1 ∧
    valuesSum (analyze_repo [samplePy] [] [] [".py", "py"]).stats
      > allFilesLines [samplePy] := by
  decide

/-- C2 (amended): each extension bucket receives exactly one
contribution per occurrence of its extension in the configured list and
per file matching that extension and passing the exclusion filters; in
particular no file is counted twice within one glob pass, but a file
whose name matches several configured entries is counted once per
matching entry. -/
theorem analyze_repo_bucket_characterisation (files : List SrcFile)
    (ds fs exts : List String) (e : String) :
    getD (analyze_repo files ds fs exts).stats e
      = exts.count e * perExtIncludedLines files ds fs e ∧
    getD (analyze_repo files ds fs exts).file_counts e
      = exts.count e * perExtIncludedCount files ds fs e :=
  ⟨analyze_repo_stats_getD files ds fs exts e,
   analyze_repo_fc_getD files ds fs exts e⟩

/-- C3: `count_lines` never raises — it is total on every read outcome;
on a decode failure it returns 0 and prints nothing, and on any other
read failure it returns 0 and prints a warning message. -/
theorem count_lines_never_raises (c : FileContent) :
    (c = FileContent.binary → count_lines c = (0, [])) ∧
    (∀ e, c = FileContent.readError e →
      (count_lines c).1 = 0 ∧ (count_lines c).2 ≠ []) := by
  constructor
  · rintro rfl
    rfl
  · rintro e rfl
    exact ⟨rfl, by simp [count_lines]⟩

/-- Witness for C3 at the two failing read outcomes. -/
theorem count_lines_never_raises_witness :
    count_lines FileContent.binary = (0, []) ∧
    (count_lines (FileContent.readError "disk failure")).1 = 0 ∧
    (count_lines (FileContent.readError "disk failure")).2 ≠ [] :=
  ⟨(count_lines_never_raises FileContent.binary).1 rfl,
   ((count_lines_never_raises (FileContent.readError "disk failure")).2
      "disk failure" rfl).1,
   ((count_lines_never_raises (FileContent.readError "disk failure")).2
      "disk failure" rfl).2⟩

theorem sum_ones_eq_length_filter (lines : List String) :
    (lines.map (fun l => if pyStrip l != "" then 1 else 0)).sum
      = (lines.filter (fun l => pyStrip l != "")).length := by
  induction lines with
  | nil => rfl
  | cons l t ih =>
    rw [List.map_cons, List.sum_cons, List.filter_cons, ih]
    by_cases hl : (pyStrip l != "") = true
    · rw [if_pos hl, if_pos hl, List.length_cons]
      omega
    · rw [if_neg hl, if_neg hl]
      omega

/-- C4: on a successfully read text file, `count_lines` returns exactly
the number of lines whose whitespace-stripped content is non-empty; in
particular a file of only blank or whitespace lines yields 0. -/
theorem count_lines_text_counts_nonblank (lines : List String) :
    (count_lines (FileContent.text lines)).1
      = (lines.filter (fun l => pyStrip l != "")).length ∧
    ((∀ l ∈ lines, pyStrip l = "") →
      (count_lines (FileContent.text lines)).1 = 0) := by
  have hmain : (count_lines (FileContent.text lines)).1
      = (lines.filter (fun l => pyStrip l != "")).length :=
    sum_ones_eq_length_filter lines
  refine ⟨hmain, fun h => ?_⟩
  rw [hmain]
  have hnil : lines.filter (fun l => pyStrip l != "") = [] := by
    rw [List.filter_eq_nil_iff]
    intro a ha
    simp [h a ha]
  rw [hnil]
  rfl

/-- Witness for C4 on a file of two whitespace lines and a blank line. -/
theorem count_lines_text_counts_nonblank_witness :
    (count_lines (FileContent.text ["  ", "", "\t"])).1 = 0 :=
  (count_lines_text_counts_nonblank ["  ", "", "\t"]).2 (by decide)

/-- C5: `format_results` on two empty counters reports zero total lines
and zero total files, and in general a zero line total makes every
percentage zero while a zero file count makes the average zero — no
division failure is possible. -/
theorem format_results_zero_guards :
    format_results [] [] = { totalLines := 0, totalFiles := 0, rows := [] } ∧
    ∀ (stats fc : CounterMap) (r : ReportRow),
      r ∈ (format_results stats fc).rows →
      (valuesSum stats = 0 → r.percentage = 0) ∧
      (r.files = 0 → r.avgLines = 0) := by
  refine ⟨rfl, ?_⟩
  intro stats fc r hr
  simp only [format_results, List.mem_map] at hr
  obtain ⟨p, hp, hrp⟩ := hr
  subst hrp
  constructor
  · intro h0
    simp [mkRow, pct, h0]
  · intro hf
    simp only [mkRow] at hf
    simp [mkRow, avgOf, hf]

/-- Witness for C5: the zero-valued entry `x` is reported with zero
percentage and zero average. -/
theorem format_results_zero_guards_witness :
    (mkRow [] 0 ("x", 0)).percentage = 0 ∧ (mkRow [] 0 ("x", 0)).avgLines = 0 := by
  have h := format_results_zero_guards.2 [("x", 0)] [] (mkRow [] 0 ("x", 0))
    (by decide)
  exact ⟨h.1 (by decide), h.2 (by decide)⟩

/-- C6: the reference scenario — `a.py` with three non-blank lines and
one blank line, `b.py` empty, extensions `[.py]`, no exclusions —
yields line counts `.py = 3` over `2` files, and the report shows `.py`
at 100 percent with an average of 1.5 lines per file. -/
theorem analyze_format_scenario :
    analyze_repo [sampleA, sampleB] [] [] [".py"]
      = { stats := [(".py", 3)], file_counts := [(".py", 2)] } ∧
    format_results (analyze_repo [sampleA, sampleB] [] [] [".py"]).stats
        (analyze_repo [sampleA, sampleB] [] [] [".py"]).file_counts
      = { totalLines := 3, totalFiles := 2,
          rows := [{ ext := ".py", lines := 3, percentage := 100,
                     files := 2, avgLines := 3 / 2 }] } := by
  have h1 : analyze_repo [sampleA, sampleB] [] [] [".py"]
      = { stats := [(".py", 3)], file_counts := [(".py", 2)] } := by
    decide
  refine ⟨h1, ?_⟩
  rw [h1]
  norm_num [format_results, valuesSum, sortDesc, insertDesc, mkRow, pct,
    avgOf, getD, Report.mk.injEq, ReportRow.mk.injEq]

/-- C7: a file matching both an included extension and one of the
excluded file patterns is never counted: removing it from the tree
leaves the entire result of `analyze_repo` unchanged. -/
theorem excluded_pattern_file_never_counted (files1 files2 : List SrcFile)
    (f : SrcFile) (ds fs exts : List String)
    (hinc : exts.any (fun e => isCandidate e f) = true)
    (hpat : fs.any (fun pat => pathMatch f.parts pat) = true) :
    analyze_repo (files1 ++ f :: files2) ds fs exts
      = analyze_repo (files1 ++ files2) ds fs exts :=
  analyze_repo_erase files1 files2 f ds fs exts (by simp [excludedBy, hpat])

/-- Witness for C7: `r/a.min.js` matches the included `.js` extension
and the excluded `*.min.js` pattern, and contributes nothing. -/
theorem excluded_pattern_file_never_counted_witness :
    analyze_repo [sampleA, sampleMin] [] ["*.min.js"] [".js", ".py"]
      = analyze_repo [sampleA] [] ["*.min.js"] [".js", ".py"] :=
  excluded_pattern_file_never_counted [sampleA] [] sampleMin
    [] ["*.min.js"] [".js", ".py"] (by decide) (by decide)

/-- C8 (counterexample): the exclusion test is not a base-name glob
match.  With the excluded pattern `d/*.js`, the file `d/x.js` is
excluded by the code (`Path.match` matches the trailing path
components) although no directory substring applies and its base name
`x.js` does not match the pattern. -/
theorem exclusion_not_basename_only :
    excludedBy [] ["d/*.js"] sampleDJs = true ∧
    specExcluded [] ["d/*.js"] sampleDJs = false ∧
    (analyze_repo [sampleDJs] [] ["d/*.js"] [".js"]).file_counts = [] := by
  decide

/-- C8 (amended): the exclusion test excludes a path exactly when some
directory-exclusion entry occurs as a substring anywhere in the path's
string form or the path matches some configured glob pattern component
by component from the right; for patterns that are nonempty and contain
no path separator — every pattern the tool's interface contemplates —
this coincides exactly with a shell-glob match of the file's base name. -/
theorem excludedBy_eq_spec_basename (ds fs : List String) (f : SrcFile)
    (hfs : ∀ pat ∈ fs, pat ≠ "" ∧ '/' ∉ pat.data)
    (hp : f.parts ≠ []) :
    excludedBy ds fs f = specExcluded ds fs f := by
  simp only [excludedBy, specExcluded]
  congr 1
  apply any_congr
  intro pat hpat
  exact pathMatch_eq_basename f.parts pat (hfs pat hpat).1 (hfs pat hpat).2 hp

/-- Witness for C8 at the default-style configuration. -/
theorem excludedBy_eq_spec_basename_witness :
    excludedBy ["node_modules"] ["*.min.js", "*.pyc"] sampleMin
      = specExcluded ["node_modules"] ["*.min.js", "*.pyc"] sampleMin :=
  excludedBy_eq_spec_basename ["node_modules"] ["*.min.js", "*.pyc"] sampleMin
    (by decide) (by decide)

/-- C9: an included, non-excluded file that fails to decode as text
adds nothing to any line counter but still increments its extension's
processed-file count (by one, when its extension occurs once in the
configured list), and an extra zero-line file strictly lowers the
average-lines-per-file figure of a bucket with a positive line total. -/
theorem binary_file_still_counted (l1 l2 : List SrcFile) (f : SrcFile)
    (ds fs exts : List String) (e : String)
    (hbin : f.content = FileContent.binary)
    (hc : isCandidate e f = true)
    (hx : excludedBy ds fs f = false)
    (honce : exts.count e = 1) :
    (∀ k, getD (analyze_repo (l1 ++ f :: l2) ds fs exts).stats k
        = getD (analyze_repo (l1 ++ l2) ds fs exts).stats k) ∧
    getD (analyze_repo (l1 ++ f :: l2) ds fs exts).file_counts e
      = getD (analyze_repo (l1 ++ l2) ds fs exts).file_counts e + 1 ∧
    (∀ L n, 0 < L → 0 < n → avgOf L (n + 1) < avgOf L n) := by
  have hzero : (count_lines f.content).1 = 0 := by
    rw [hbin]
    rfl
  refine ⟨?_, ?_, fun L n hL hn => avgOf_lt_of_extra_file L n hL hn⟩
  · intro k
    rw [analyze_repo_stats_getD, analyze_repo_stats_getD,
      perExtIncludedLines_middle_zero l1 l2 f ds fs k hzero]
  · rw [analyze_repo_fc_getD, analyze_repo_fc_getD, honce,
      perExtIncludedCount_middle l1 l2 f ds fs e hc hx]
    omega

/-- Witness for C9: the undecodable `r/img.py` leaves the `.py` line
total unchanged but raises its file count by one. -/
theorem binary_file_still_counted_witness :
    getD (analyze_repo [sampleBin, sampleA] [] [] [".py"]).stats ".py"
      = getD (analyze_repo [sampleA] [] [] [".py"]).stats ".py" ∧
    getD (analyze_repo [sampleBin, sampleA] [] [] [".py"]).file_counts ".py"
      = getD (analyze_repo [sampleA] [] [] [".py"]).file_counts ".py" + 1 := by
  have h := binary_file_still_counted [] [sampleA] sampleBin [] [] [".py"] ".py"
    rfl (by decide) (by decide) (by decide)
  exact ⟨h.1 ".py", h.2.1⟩

/-- C10: the candidate total computed by `get_total_files` — which
applies no exclusion filter — is at least the number of files actually
processed by `analyze_repo`, the sum of the returned per-extension file
counts. -/
theorem get_total_files_ge_processed (files : List SrcFile)
    (ds fs exts : List String) :
    valuesSum (analyze_repo files ds fs exts).file_counts
      ≤ get_total_files files exts := by
  rw [analyze_repo_fc_sum, get_total_files]
  apply sum_le_sum_map
  intro e he
  rw [perExtIncludedCount]
  exact length_filter_and_le (fun f => isCandidate e f)
    (fun f => !(excludedBy ds fs f)) files
